import Mathlib

/-!
Verification of the Intel command-set flash driver (`intel.c`) of the
flashwriter firmware.  The driver is shallowly embedded: the memory-mapped
device is modelled by a trace of register transactions plus a response
stream `env : Nat → Nat` giving the value returned by each successive
`fl_read`; the process-wide mutable context (the `static` variables
`devinf`, `addr_step`, `addr_shift`, `sr7flag` … `sr1flag`) is modelled by
a `DevCtx` record carried inside the machine state; unbounded busy-wait
polls take explicit fuel and the operations return `Option` (`none` =
the poll never saw the ready mask within the fuel).  All machine integers
are `Nat` with an explicit `% 2 ^ 32` wherever 32-bit overflow can occur.
-/

/-! ### Command bytes and status bits (`intel.c` lines 32-64) -/

def INTEL_BLOCK_ERASE : Nat := 0x20
def INTEL_FULL_ERASE : Nat := 0x30
def INTEL_PROGRAM_WORD : Nat := 0x40
def INTEL_CLEAR_STATUS : Nat := 0x50
def INTEL_CHANGE_LOCK : Nat := 0x60
def INTEL_READ_STATUS : Nat := 0x70
def INTEL_READ_ARRAY : Nat := 0xff

def INTEL_SET_LOCK_BIT : Nat := 0x01
def INTEL_CLEAR_LOCK_BITS : Nat := 0xd0
def INTEL_CONFIRM : Nat := 0xd0

def INTEL_READY : Nat := 0x80
def INTEL_ERASE_SUSPEND : Nat := 0x40
def INTEL_ERASE_ERRORS : Nat := 0x20
def INTEL_PROGRAM_ERRORS : Nat := 0x10
def INTEL_VOLTAGE_ERRORS : Nat := 0x08
def INTEL_PROGRAM_SUSPEND : Nat := 0x04
def INTEL_LOCKBIT_ERRORS : Nat := 0x02

/-- Delay loop count: the `__MICROBLAZE__` build value (`intel.c` line 325);
the exact number is irrelevant to every property proved below. -/
def INTEL_STATUS_DELAY_LOOPS : Nat := 5

/-- Result of decoding the status register.  `intel.c` returns the small
integer codes `INTEL_STATUS_READY = 0` and `INTEL_STATUS_CMDSEQ_ERR`,
`…_ERASE_ERR`, `…_PROG_ERR`, `…_VOLTAGE_ERR`, `…_LOCK_ERR`
(= `ERR_FLASH_SEQ/ERASE/PROG/VOLTAGE/LOCK`, five distinct nonzero codes
from `errors.h`); we embed them as an inductive kind, `ready` playing the
role of 0. -/
inductive IntelStatus where
  | ready
  | cmdseqErr
  | eraseErr
  | progErr
  | voltageErr
  | lockErr
deriving DecidableEq, Repr

/-- One geometry region: `flgeo.region[i]` (`flash.h` region descriptor:
starting byte offset, number of blocks, uniform block size). -/
structure Region where
  offset : Nat
  nblks : Nat
  blksiz : Nat
deriving DecidableEq, Repr

/-- The `dev_info_t` fields the Intel driver consults. -/
structure DevInfo where
  addr_step : Nat
  addr_shift : Nat
  part_mode : Nat
  regions : List Region
deriving DecidableEq, Repr

/-- The driver's process-wide mutable context: the `static` variables
`devinf`, `addr_step`, `addr_shift` and the seven precomputed status-mask
flags (`intel.c` lines 112-115). -/
structure DevCtx where
  devinf : DevInfo
  addr_step : Nat
  addr_shift : Nat
  sr7flag : Nat
  sr6flag : Nat
  sr5flag : Nat
  sr4flag : Nat
  sr3flag : Nat
  sr2flag : Nat
  sr1flag : Nat
deriving DecidableEq, Repr

/-- A register-level transaction issued to (or a spin executed beside) the
device: `fl_cmdwrite`, `fl_write`, `fl_read` (with the value returned) and
the calibrated delay loop. -/
inductive Ev where
  | cmdwrite (cmdaddr cmddata : Nat)
  | write (addr data : Nat)
  | read (addr value : Nat)
  | delay (loops : Nat)
deriving DecidableEq, Repr

/-- Machine state threaded through every operation: the mutable context,
the number of `fl_read`s performed so far (index into the response
stream), and the trace of transactions issued so far. -/
structure MachineState where
  ctx : DevCtx
  reads : Nat
  trace : List Ev
deriving DecidableEq, Repr

/-! ### External primitives (`portab`/`flashwriter` layer) -/

/-- `fl_cmdwrite (cmdaddr, cmddata)`: issue a command-space transaction. -/
def fl_cmdwrite (cmdaddr cmddata : Nat) (s : MachineState) : MachineState :=
  { s with trace := s.trace ++ [Ev.cmdwrite cmdaddr cmddata] }

/-- `fl_write (addr, data)`: issue a data-space write transaction. -/
def fl_write (addr data : Nat) (s : MachineState) : MachineState :=
  { s with trace := s.trace ++ [Ev.write addr data] }

/-- `fl_read (addr)`: issue a data-space read; the device's answer is the
next value of the response stream `env`. -/
def fl_read (env : Nat → Nat) (addr : Nat) (s : MachineState) : Nat × MachineState :=
  (env s.reads,
   { s with reads := s.reads + 1, trace := s.trace ++ [Ev.read addr (env s.reads)] })

/-- `mem_read (srcaddr)`: read one bus-width unit from host memory. -/
def mem_read (mem : Nat → Nat) (srcaddr : Nat) : Nat := mem srcaddr

/-! ### Address translation macros (`intel.c` lines 66-67) -/

/-- `BLKADDR_TO_ADDR(blkaddr) = blkaddr << devinf->addr_shift`
(32-bit left shift, hence the `% 2 ^ 32`). -/
def BLKADDR_TO_ADDR (c : DevCtx) (blkaddr : Nat) : Nat :=
  (blkaddr <<< c.devinf.addr_shift) % 2 ^ 32

/-- `ADDR_TO_BLKADDR(addr) = addr >> devinf->addr_shift`. -/
def ADDR_TO_BLKADDR (c : DevCtx) (addr : Nat) : Nat :=
  addr >>> c.devinf.addr_shift

/-! ### Driver functions (`intel.c` lines 121-336) -/

/-- `intel_init_dev_params`: computes the whole context.  `fl_form_cmd`
(external, `formCmd` here) replicates a native status bit across the bus
interleave width. -/
def intel_init_dev_params (formCmd : Nat → Nat) (devinfo : DevInfo) : DevCtx :=
  { devinf := devinfo
    addr_step := devinfo.addr_step
    addr_shift := devinfo.addr_shift
    sr7flag := formCmd INTEL_READY
    sr6flag := formCmd INTEL_ERASE_SUSPEND
    sr5flag := formCmd INTEL_ERASE_ERRORS
    sr4flag := formCmd INTEL_PROGRAM_ERRORS
    sr3flag := formCmd INTEL_VOLTAGE_ERRORS
    sr2flag := formCmd INTEL_PROGRAM_SUSPEND
    sr1flag := formCmd INTEL_LOCKBIT_ERRORS }

/-- `intel_status_delay`: the calibrated busy-wait; touches no register. -/
def intel_status_delay (s : MachineState) : MachineState :=
  { s with trace := s.trace ++ [Ev.delay INTEL_STATUS_DELAY_LOOPS] }

/-- `intel_clear_status`: one global (not block-qualified) clear-status
command at address 0. -/
def intel_clear_status (s : MachineState) : MachineState :=
  fl_cmdwrite 0 INTEL_CLEAR_STATUS s

/-- `intel_rst_blk`: clear status, switch the block to read-array mode,
settle delay. -/
def intel_rst_blk (blkaddr : Nat) (s : MachineState) : MachineState :=
  intel_status_delay (fl_cmdwrite blkaddr INTEL_READ_ARRAY (intel_clear_status s))

/-- `intel_read_status`: read-status command at the block's command
address, then a read at its byte address. -/
def intel_read_status (env : Nat → Nat) (blkaddr : Nat) (s : MachineState) :
    Nat × MachineState :=
  fl_read env (BLKADDR_TO_ADDR s.ctx blkaddr) (fl_cmdwrite blkaddr INTEL_READ_STATUS s)

/-- The pure decode chain of `intel_status_check` (`intel.c` lines
257-270), factored out: it is a function of the status word and the
precomputed masks only. -/
def intel_decode (c : DevCtx) (status : Nat) : IntelStatus :=
  if status &&& c.sr5flag = c.sr5flag then
    if status &&& c.sr4flag = c.sr4flag then IntelStatus.cmdseqErr
    else IntelStatus.eraseErr
  else if status &&& c.sr4flag = c.sr4flag then IntelStatus.progErr
  else if status &&& c.sr3flag = c.sr3flag then IntelStatus.progErr
  else if status &&& c.sr2flag = c.sr2flag then IntelStatus.voltageErr
  else if status &&& c.sr1flag = c.sr1flag then IntelStatus.lockErr
  else IntelStatus.ready

/-- `intel_status_check`: fresh status read, then the decode chain. -/
def intel_status_check (env : Nat → Nat) (blkaddr : Nat) (s : MachineState) :
    IntelStatus × MachineState :=
  let p := intel_read_status env blkaddr s
  (intel_decode s.ctx p.1, p.2)

/-- The busy-wait pattern shared by erase, program, lock and unlock:
read the status word, repeat until `(data & sr7flag) == sr7flag`.
`fuel` bounds the number of reads; `none` means the device never
reported ready within the fuel. -/
def pollReady (env : Nat → Nat) (addr mask : Nat) :
    Nat → MachineState → Option (Nat × MachineState)
  | 0, _ => none
  | fuel + 1, s =>
    let p := fl_read env addr s
    if p.1 &&& mask = mask then some p
    else pollReady env addr mask fuel p.2

/-- Common body of `intel_lock_block` and `intel_unlock_block`: change-lock
command, the given confirm byte, settle delay, busy-wait for ready, second
settle delay, status decode, unconditional block reset. -/
def intel_change_lock_common (confirm : Nat) (env : Nat → Nat) (fuel blkaddr : Nat)
    (s : MachineState) : Option (IntelStatus × MachineState) :=
  let s1 := fl_cmdwrite blkaddr INTEL_CHANGE_LOCK s
  let s2 := fl_cmdwrite blkaddr confirm s1
  let s3 := intel_status_delay s2
  match pollReady env (BLKADDR_TO_ADDR s.ctx blkaddr) s.ctx.sr7flag fuel s3 with
  | none => none
  | some p =>
    let s4 := intel_status_delay p.2
    let q := intel_status_check env blkaddr s4
    some (q.1, intel_rst_blk blkaddr q.2)

/-- `intel_lock_block` (`intel.c` lines 273-291). -/
def intel_lock_block (env : Nat → Nat) (fuel blkaddr : Nat) (s : MachineState) :
    Option (IntelStatus × MachineState) :=
  let s1 := fl_cmdwrite blkaddr INTEL_CHANGE_LOCK s
  let s2 := fl_cmdwrite blkaddr INTEL_SET_LOCK_BIT s1
  let s3 := intel_status_delay s2
  match pollReady env (BLKADDR_TO_ADDR s.ctx blkaddr) s.ctx.sr7flag fuel s3 with
  | none => none
  | some p =>
    let s4 := intel_status_delay p.2
    let q := intel_status_check env blkaddr s4
    some (q.1, intel_rst_blk blkaddr q.2)

/-- `intel_unlock_block` (`intel.c` lines 293-311). -/
def intel_unlock_block (env : Nat → Nat) (fuel blkaddr : Nat) (s : MachineState) :
    Option (IntelStatus × MachineState) :=
  let s1 := fl_cmdwrite blkaddr INTEL_CHANGE_LOCK s
  let s2 := fl_cmdwrite blkaddr INTEL_CLEAR_LOCK_BITS s1
  let s3 := intel_status_delay s2
  match pollReady env (BLKADDR_TO_ADDR s.ctx blkaddr) s.ctx.sr7flag fuel s3 with
  | none => none
  | some p =>
    let s4 := intel_status_delay p.2
    let q := intel_status_check env blkaddr s4
    some (q.1, intel_rst_blk blkaddr q.2)

/-- `intel_blk_erase_dev` (`intel.c` lines 183-206).
`NO_INTEL_UNLOCK_BLOCKS` is not defined in this build, so the block is
unlocked first and a non-ready unlock status is returned at once. -/
def intel_blk_erase_dev (env : Nat → Nat) (fuel blkaddr : Nat) (s : MachineState) :
    Option (IntelStatus × MachineState) :=
  match intel_unlock_block env fuel blkaddr s with
  | none => none
  | some p =>
    if p.1 ≠ IntelStatus.ready then some p
    else
      let s1 := fl_cmdwrite blkaddr INTEL_BLOCK_ERASE p.2
      let s2 := fl_cmdwrite blkaddr INTEL_CONFIRM s1
      let s3 := intel_status_delay s2
      match pollReady env (BLKADDR_TO_ADDR p.2.ctx blkaddr) p.2.ctx.sr7flag fuel s3 with
      | none => none
      | some q =>
        let r := intel_status_check env blkaddr q.2
        some (r.1, intel_rst_blk blkaddr r.2)

/-- The byte-count alignment step of `intel_prog_dev`:
`if (nbytes % addr_step) nbytes += addr_step - nbytes % addr_step`
in 32-bit arithmetic. -/
def intel_align (step nbytes : Nat) : Nat :=
  if nbytes % step ≠ 0 then (nbytes + (step - nbytes % step)) % 2 ^ 32 else nbytes

/-- The `while (nbytes)` loop of `intel_prog_dev` (`intel.c` lines
222-240): program one unit, poll ready, decode; on error reset the block
and return; otherwise advance `offset`, `nbytes`, `srcaddr` by
`addr_step` (32-bit arithmetic).  `itFuel` bounds the number of loop
iterations. -/
def intel_prog_loop (env mem : Nat → Nat) (pollFuel : Nat) :
    Nat → Nat → Nat → Nat → MachineState → Option (IntelStatus × MachineState)
  | 0, nbytes, _, _, s => if nbytes = 0 then some (IntelStatus.ready, s) else none
  | itFuel + 1, nbytes, offset, srcaddr, s =>
    if nbytes = 0 then some (IntelStatus.ready, s)
    else
      let data := mem_read mem srcaddr
      let s1 := fl_cmdwrite (offset >>> s.ctx.addr_shift) INTEL_PROGRAM_WORD s
      let s2 := fl_write offset data s1
      let s3 := intel_status_delay s2
      match pollReady env offset s.ctx.sr7flag pollFuel s3 with
      | none => none
      | some p =>
        let q := intel_status_check env (ADDR_TO_BLKADDR p.2.ctx offset) p.2
        if q.1 = IntelStatus.ready then
          intel_prog_loop env mem pollFuel itFuel
            ((nbytes + (2 ^ 32 - s.ctx.addr_step)) % 2 ^ 32)
            ((offset + s.ctx.addr_step) % 2 ^ 32)
            ((srcaddr + s.ctx.addr_step) % 2 ^ 32) q.2
        else
          some (q.1, intel_rst_blk (ADDR_TO_BLKADDR q.2.ctx offset) q.2)

/-- `intel_prog_dev` (`intel.c` lines 210-243): reset the target block,
align the byte count, then the programming loop. -/
def intel_prog_dev (env mem : Nat → Nat) (pollFuel itFuel : Nat)
    (offset nbytes srcaddr : Nat) (s : MachineState) :
    Option (IntelStatus × MachineState) :=
  let s0 := intel_rst_blk (ADDR_TO_BLKADDR s.ctx offset) s
  intel_prog_loop env mem pollFuel itFuel (intel_align s0.ctx.addr_step nbytes)
    offset srcaddr s0

/-- Inner loop of `intel_erase_dev`: for each of the `j` remaining blocks
of the current region, compute the block address
`offset >> BYTE_OFFSET_FACTOR(part_mode)` (`bof` models the macro, see
`blockIter`), erase it, return the first non-ready status. -/
def intel_erase_dev_blks (env : Nat → Nat) (fuel : Nat) (bof : Nat → Nat) (blksiz : Nat) :
    Nat → Nat → MachineState → Option (IntelStatus × MachineState)
  | 0, _, s => some (IntelStatus.ready, s)
  | j + 1, offset, s =>
    match intel_blk_erase_dev env fuel (offset >>> bof s.ctx.devinf.part_mode) s with
    | none => none
    | some p =>
      if p.1 = IntelStatus.ready then
        intel_erase_dev_blks env fuel bof blksiz j ((offset + blksiz) % 2 ^ 32) p.2
      else some p

/-- Outer loop of `intel_erase_dev` over the geometry's regions. -/
def intel_erase_dev_regions (env : Nat → Nat) (fuel : Nat) (bof : Nat → Nat) :
    List Region → MachineState → Option (IntelStatus × MachineState)
  | [], s => some (IntelStatus.ready, s)
  | r :: rs, s =>
    match intel_erase_dev_blks env fuel bof r.blksiz r.nblks r.offset s with
    | none => none
    | some p =>
      if p.1 = IntelStatus.ready then intel_erase_dev_regions env fuel bof rs p.2
      else some p

/-- `intel_erase_dev` (`intel.c` lines 161-178): block-by-block erase over
the whole geometry, short-circuiting at the first non-ready status.
`bof` models the `BYTE_OFFSET_FACTOR` macro of `flash.h` (not under
`src/`): modelled from the spec as the bus-width-dependent byte-to-block
shift, a pure function of `part_mode`. -/
def intel_erase_dev (env : Nat → Nat) (fuel : Nat) (bof : Nat → Nat)
    (s : MachineState) : Option (IntelStatus × MachineState) :=
  intel_erase_dev_regions env fuel bof s.ctx.devinf.regions s

/-- Inner loop of `intel_rst_dev` over one region's blocks. -/
def intel_rst_dev_blks (bof : Nat → Nat) (blksiz : Nat) :
    Nat → Nat → MachineState → MachineState
  | 0, _, s => s
  | j + 1, offset, s =>
    intel_rst_dev_blks bof blksiz j ((offset + blksiz) % 2 ^ 32)
      (intel_rst_blk (offset >>> bof s.ctx.devinf.part_mode) s)

/-- Outer loop of `intel_rst_dev` over the regions. -/
def intel_rst_dev_regions (bof : Nat → Nat) :
    List Region → MachineState → MachineState
  | [], s => s
  | r :: rs, s =>
    intel_rst_dev_regions bof rs (intel_rst_dev_blks bof r.blksiz r.nblks r.offset s)

/-- `intel_rst_dev` (`intel.c` lines 135-148): reset every block of the
geometry. -/
def intel_rst_dev (bof : Nat → Nat) (s : MachineState) : MachineState :=
  intel_rst_dev_regions bof s.ctx.devinf.regions s

/-! ### Spec-side definitions -/

/-- Block Iterator, one region (spec 4.2): yield
`offset >> BYTE_OFFSET_FACTOR(part_mode)` for each block, advancing the
running offset by the region's block size (32-bit arithmetic). -/
def regionBlockAddrs (bof : Nat → Nat) (part_mode blksiz : Nat) :
    Nat → Nat → List Nat
  | 0, _ => []
  | j + 1, offset =>
    (offset >>> bof part_mode) :: regionBlockAddrs bof part_mode blksiz j
      ((offset + blksiz) % 2 ^ 32)

/-- Block Iterator over the whole geometry (spec 4.2): all block addresses,
region by region. -/
def blockIter (bof : Nat → Nat) (d : DevInfo) : List Nat :=
  (d.regions.map (fun r => regionBlockAddrs bof d.part_mode r.blksiz r.nblks r.offset)).flatten

/-- Spec-side reference for `erase_device` (spec 4.4): invoke
`erase_block` on each listed address in order, short-circuiting at the
first non-ready result. -/
def eraseBlockList (env : Nat → Nat) (fuel : Nat) :
    List Nat → MachineState → Option (IntelStatus × MachineState)
  | [], s => some (IntelStatus.ready, s)
  | b :: bs, s =>
    match intel_blk_erase_dev env fuel b s with
    | none => none
    | some p =>
      if p.1 = IntelStatus.ready then eraseBlockList env fuel bs p.2
      else some p

/-! ### Observables on traces -/

/-- The trace ends with the reset sequence for block `b`: the global
clear-status command, the read-array command at `b`, and the settle
delay — exactly what `intel_rst_blk b` issues. -/
def resetSuffix (b : Nat) (tr : List Ev) : Prop :=
  tr.drop (tr.length - 3) =
    [Ev.cmdwrite 0 INTEL_CLEAR_STATUS, Ev.cmdwrite b INTEL_READ_ARRAY,
     Ev.delay INTEL_STATUS_DELAY_LOOPS]

instance (b : Nat) (tr : List Ev) : Decidable (resetSuffix b tr) := by
  unfold resetSuffix; infer_instance

/-- Recognize a program-word command transaction. -/
def isProgWord : Ev → Bool
  | Ev.cmdwrite _ d => d == INTEL_PROGRAM_WORD
  | _ => false

/-- Number of programming units issued in a trace. -/
def progWords (tr : List Ev) : Nat := tr.countP isProgWord

/-! ### Concrete scenario data -/

/-- Geometry of the spec's erase scenario: one region at offset 0, 4
blocks of size 0x10000, `addr_step = 2`, `addr_shift = 1`. -/
def devinfo0 : DevInfo :=
  { addr_step := 2, addr_shift := 1, part_mode := 0,
    regions := [{ offset := 0, nblks := 4, blksiz := 0x10000 }] }

/-- Context computed by the initializer for `devinfo0` with interleave
width 1 (`fl_form_cmd` the identity). -/
def ctx0 : DevCtx := intel_init_dev_params id devinfo0

/-- Fresh machine state for `ctx0`. -/
def s0 : MachineState := { ctx := ctx0, reads := 0, trace := [] }

/-- Device responses for the erase scenario: every read returns the ready
status word 0x80 except the third (the first poll of the erase itself),
which returns 0 (busy) so that the poll loop is exercised. -/
def env7 : Nat → Nat := fun k => if k = 2 then 0 else 0x80

/-- Device responses of an always-ready, error-free device. -/
def envR : Nat → Nat := fun _ => 0x80

/-- Host source buffer holding zeros. -/
def mem0 : Nat → Nat := fun _ => 0

/-- A context with `addr_step = 4`, `addr_shift = 2` (32-bit bus). -/
def ctx4 : DevCtx := intel_init_dev_params id
  { addr_step := 4, addr_shift := 2, part_mode := 0,
    regions := [{ offset := 0, nblks := 4, blksiz := 0x10000 }] }

/-- Fresh machine state for `ctx4`. -/
def s4 : MachineState := { ctx := ctx4, reads := 0, trace := [] }

/-! ### Context-preservation helper lemmas -/

@[simp] lemma ctx_fl_cmdwrite (a d : Nat) (s : MachineState) :
    (fl_cmdwrite a d s).ctx = s.ctx := rfl

@[simp] lemma ctx_fl_write (a d : Nat) (s : MachineState) :
    (fl_write a d s).ctx = s.ctx := rfl

@[simp] lemma ctx_fl_read (env : Nat → Nat) (a : Nat) (s : MachineState) :
    (fl_read env a s).2.ctx = s.ctx := rfl

@[simp] lemma ctx_intel_status_delay (s : MachineState) :
    (intel_status_delay s).ctx = s.ctx := rfl

@[simp] lemma ctx_intel_clear_status (s : MachineState) :
    (intel_clear_status s).ctx = s.ctx := rfl

@[simp] lemma ctx_intel_rst_blk (b : Nat) (s : MachineState) :
    (intel_rst_blk b s).ctx = s.ctx := rfl

@[simp] lemma ctx_intel_read_status (env : Nat → Nat) (b : Nat) (s : MachineState) :
    (intel_read_status env b s).2.ctx = s.ctx := rfl

@[simp] lemma ctx_intel_status_check (env : Nat → Nat) (b : Nat) (s : MachineState) :
    (intel_status_check env b s).2.ctx = s.ctx := rfl

lemma ctx_pollReady {env : Nat → Nat} {a m : Nat} :
    ∀ {fuel : Nat} {s : MachineState} {p : Nat × MachineState},
      pollReady env a m fuel s = some p → p.2.ctx = s.ctx := by
  intro fuel
  induction fuel with
  | zero => intro s p h; simp [pollReady] at h
  | succ n ih =>
    intro s p h
    simp only [pollReady] at h
    split at h
    · cases h; rfl
    · exact (ih h).trans rfl

lemma ctx_intel_unlock_block {env : Nat → Nat} {fuel b : Nat} {s : MachineState}
    {p : IntelStatus × MachineState} (h : intel_unlock_block env fuel b s = some p) :
    p.2.ctx = s.ctx := by
  simp only [intel_unlock_block] at h
  split at h
  · exact absurd h (by simp)
  · rename_i q hq
    cases h
    simpa using ctx_pollReady hq

lemma ctx_intel_lock_block {env : Nat → Nat} {fuel b : Nat} {s : MachineState}
    {p : IntelStatus × MachineState} (h : intel_lock_block env fuel b s = some p) :
    p.2.ctx = s.ctx := by
  simp only [intel_lock_block] at h
  split at h
  · exact absurd h (by simp)
  · rename_i q hq
    cases h
    simpa using ctx_pollReady hq

lemma ctx_intel_blk_erase_dev {env : Nat → Nat} {fuel b : Nat} {s : MachineState}
    {p : IntelStatus × MachineState} (h : intel_blk_erase_dev env fuel b s = some p) :
    p.2.ctx = s.ctx := by
  simp only [intel_blk_erase_dev] at h
  split at h
  · exact absurd h (by simp)
  · rename_i q hq
    split at h
    · cases h; exact ctx_intel_unlock_block hq
    · split at h
      · exact absurd h (by simp)
      · rename_i r hr
        cases h
        have h1 := ctx_pollReady hr
        have h2 := ctx_intel_unlock_block hq
        simp at h1
        simpa using h1.trans h2

lemma ctx_intel_prog_loop {env mem : Nat → Nat} {pollFuel : Nat} :
    ∀ {itFuel nbytes offset srcaddr : Nat} {s : MachineState}
      {p : IntelStatus × MachineState},
      intel_prog_loop env mem pollFuel itFuel nbytes offset srcaddr s = some p →
      p.2.ctx = s.ctx := by
  intro itFuel
  induction itFuel with
  | zero =>
    intro nbytes offset srcaddr s p h
    simp only [intel_prog_loop] at h
    split at h
    · cases h; rfl
    · exact absurd h (by simp)
  | succ n ih =>
    intro nbytes offset srcaddr s p h
    simp only [intel_prog_loop] at h
    split at h
    · cases h; rfl
    · split at h
      · exact absurd h (by simp)
      · rename_i q hq
        split at h
        · have h1 := ctx_pollReady hq
          simp at h1
          simpa [h1] using ih h
        · cases h
          have h1 := ctx_pollReady hq
          simp at h1
          simpa using h1

lemma ctx_intel_prog_dev {env mem : Nat → Nat} {pollFuel itFuel offset nbytes srcaddr : Nat}
    {s : MachineState} {p : IntelStatus × MachineState}
    (h : intel_prog_dev env mem pollFuel itFuel offset nbytes srcaddr s = some p) :
    p.2.ctx = s.ctx := by
  simp only [intel_prog_dev] at h
  simpa using ctx_intel_prog_loop h

lemma ctx_intel_erase_dev_blks {env : Nat → Nat} {fuel : Nat} {bof : Nat → Nat}
    {blksiz : Nat} :
    ∀ {j offset : Nat} {s : MachineState} {p : IntelStatus × MachineState},
      intel_erase_dev_blks env fuel bof blksiz j offset s = some p →
      p.2.ctx = s.ctx := by
  intro j
  induction j with
  | zero =>
    intro offset s p h
    simp only [intel_erase_dev_blks] at h
    cases h; rfl
  | succ n ih =>
    intro offset s p h
    simp only [intel_erase_dev_blks] at h
    split at h
    · exact absurd h (by simp)
    · rename_i q hq
      split at h
      · exact (ih h).trans (ctx_intel_blk_erase_dev hq)
      · cases h; exact ctx_intel_blk_erase_dev hq

lemma ctx_intel_erase_dev_regions {env : Nat → Nat} {fuel : Nat} {bof : Nat → Nat} :
    ∀ {rs : List Region} {s : MachineState} {p : IntelStatus × MachineState},
      intel_erase_dev_regions env fuel bof rs s = some p → p.2.ctx = s.ctx := by
  intro rs
  induction rs with
  | nil =>
    intro s p h
    simp only [intel_erase_dev_regions] at h
    cases h; rfl
  | cons r rs ih =>
    intro s p h
    simp only [intel_erase_dev_regions] at h
    split at h
    · exact absurd h (by simp)
    · rename_i q hq
      split at h
      · exact (ih h).trans (ctx_intel_erase_dev_blks hq)
      · cases h; exact ctx_intel_erase_dev_blks hq

lemma ctx_intel_erase_dev {env : Nat → Nat} {fuel : Nat} {bof : Nat → Nat}
    {s : MachineState} {p : IntelStatus × MachineState}
    (h : intel_erase_dev env fuel bof s = some p) : p.2.ctx = s.ctx :=
  ctx_intel_erase_dev_regions h

lemma ctx_intel_rst_dev_blks {bof : Nat → Nat} {blksiz : Nat} :
    ∀ {j offset : Nat} {s : MachineState},
      (intel_rst_dev_blks bof blksiz j offset s).ctx = s.ctx := by
  intro j
  induction j with
  | zero => intro offset s; rfl
  | succ n ih =>
    intro offset s
    simp only [intel_rst_dev_blks]
    exact ih.trans (ctx_intel_rst_blk _ _)

lemma ctx_intel_rst_dev_regions {bof : Nat → Nat} :
    ∀ {rs : List Region} {s : MachineState},
      (intel_rst_dev_regions bof rs s).ctx = s.ctx := by
  intro rs
  induction rs with
  | nil => intro s; rfl
  | cons r rs ih =>
    intro s
    simp only [intel_rst_dev_regions]
    exact ih.trans ctx_intel_rst_dev_blks

lemma ctx_intel_rst_dev {bof : Nat → Nat} {s : MachineState} :
    (intel_rst_dev bof s).ctx = s.ctx :=
  ctx_intel_rst_dev_regions

/-! ### Reset-suffix lemmas (for the propagation-policy claim) -/

lemma trace_intel_rst_blk (b : Nat) (s : MachineState) :
    (intel_rst_blk b s).trace = s.trace ++
      [Ev.cmdwrite 0 INTEL_CLEAR_STATUS, Ev.cmdwrite b INTEL_READ_ARRAY,
       Ev.delay INTEL_STATUS_DELAY_LOOPS] := by
  simp [intel_rst_blk, intel_status_delay, fl_cmdwrite, intel_clear_status]

lemma resetSuffix_rst_blk (b : Nat) (s : MachineState) :
    resetSuffix b (intel_rst_blk b s).trace := by
  unfold resetSuffix
  rw [trace_intel_rst_blk, List.length_append]
  norm_num

lemma shape_intel_unlock_block {env : Nat → Nat} {fuel b : Nat} {s : MachineState}
    {p : IntelStatus × MachineState} (h : intel_unlock_block env fuel b s = some p) :
    ∃ s', p.2 = intel_rst_blk b s' := by
  simp only [intel_unlock_block] at h
  split at h
  · exact absurd h (by simp)
  · cases h; exact ⟨_, rfl⟩

lemma shape_intel_lock_block {env : Nat → Nat} {fuel b : Nat} {s : MachineState}
    {p : IntelStatus × MachineState} (h : intel_lock_block env fuel b s = some p) :
    ∃ s', p.2 = intel_rst_blk b s' := by
  simp only [intel_lock_block] at h
  split at h
  · exact absurd h (by simp)
  · cases h; exact ⟨_, rfl⟩

lemma shape_intel_blk_erase_dev {env : Nat → Nat} {fuel b : Nat} {s : MachineState}
    {p : IntelStatus × MachineState} (h : intel_blk_erase_dev env fuel b s = some p) :
    ∃ s', p.2 = intel_rst_blk b s' := by
  simp only [intel_blk_erase_dev] at h
  split at h
  · exact absurd h (by simp)
  · rename_i q hq
    split at h
    · cases h; exact shape_intel_unlock_block hq
    · split at h
      · exact absurd h (by simp)
      · cases h; exact ⟨_, rfl⟩

lemma shape_intel_prog_loop {env mem : Nat → Nat} {pollFuel : Nat} :
    ∀ {itFuel nbytes offset srcaddr : Nat} {s : MachineState}
      {p : IntelStatus × MachineState},
      intel_prog_loop env mem pollFuel itFuel nbytes offset srcaddr s = some p →
      p.1 ≠ IntelStatus.ready → ∃ b s', p.2 = intel_rst_blk b s' := by
  intro itFuel
  induction itFuel with
  | zero =>
    intro nbytes offset srcaddr s p h hne
    simp only [intel_prog_loop] at h
    split at h
    · cases h; exact absurd rfl hne
    · exact absurd h (by simp)
  | succ n ih =>
    intro nbytes offset srcaddr s p h hne
    simp only [intel_prog_loop] at h
    split at h
    · cases h; exact absurd rfl hne
    · split at h
      · exact absurd h (by simp)
      · split at h
        · exact ih h hne
        · cases h; exact ⟨_, _, rfl⟩

/-! ### Claim C1 -/

/-- C1: the status decoder is a pure total function of the status word and
the precomputed mask flags (it reads nothing else of the context), and the
sequence-error result is produced if and only if both the erase-error mask
and the program-error mask are set in the status word — the conjunction is
decided by the first branch of the chain, before either bit alone. -/
theorem claim_C1 :
    (∀ (c₁ c₂ : DevCtx) (status : Nat),
      c₁.sr5flag = c₂.sr5flag → c₁.sr4flag = c₂.sr4flag → c₁.sr3flag = c₂.sr3flag →
      c₁.sr2flag = c₂.sr2flag → c₁.sr1flag = c₂.sr1flag →
      intel_decode c₁ status = intel_decode c₂ status) ∧
    (∀ (c : DevCtx) (status : Nat),
      intel_decode c status = IntelStatus.cmdseqErr ↔
        (status &&& c.sr5flag = c.sr5flag ∧ status &&& c.sr4flag = c.sr4flag)) := by
  constructor
  · intro c₁ c₂ status h5 h4 h3 h2 h1
    simp only [intel_decode, h5, h4, h3, h2, h1]
  · intro c status
    unfold intel_decode
    split_ifs <;> simp_all

/-- Witness for C1 at the concrete context `ctx0` and the status word
0x30 (erase-error and program-error both set). -/
theorem claim_C1_witness :
    intel_decode ctx0 0x30 = intel_decode ctx0 0x30 ∧
    (intel_decode ctx0 0x30 = IntelStatus.cmdseqErr ↔
      (0x30 &&& ctx0.sr5flag = ctx0.sr5flag ∧ 0x30 &&& ctx0.sr4flag = ctx0.sr4flag)) :=
  ⟨claim_C1.1 ctx0 ctx0 0x30 rfl rfl rfl rfl rfl, claim_C1.2 ctx0 0x30⟩

/-! ### Claim C3 -/

/-- C3 counterexample: a status word with only the program-suspend bit set
decodes to the `voltageErr` kind, which lies outside the claimed
five-element set {Ready, SequenceError, EraseError, ProgramError,
LockError}. -/
theorem claim_C3_counterexample :
    intel_decode ctx0 INTEL_PROGRAM_SUSPEND = IntelStatus.voltageErr ∧
    intel_decode ctx0 INTEL_PROGRAM_SUSPEND ∉
      [IntelStatus.ready, IntelStatus.cmdseqErr, IntelStatus.eraseErr,
       IntelStatus.progErr, IntelStatus.lockErr] := by
  decide

/-- C3 amended: the decoded result ranges over six kinds, not five.
Voltage-error mask conditions are indeed reported as `progErr`, but the
`voltageErr` kind is also reachable: it is produced exactly when the
program-suspend mask is set and none of the erase-error, program-error and
voltage-error masks are fully set. -/
theorem claim_C3 :
    ∀ (c : DevCtx) (status : Nat),
      (intel_decode c status = IntelStatus.voltageErr ↔
        (¬ status &&& c.sr5flag = c.sr5flag ∧ ¬ status &&& c.sr4flag = c.sr4flag ∧
         ¬ status &&& c.sr3flag = c.sr3flag ∧ status &&& c.sr2flag = c.sr2flag)) ∧
      (¬ status &&& c.sr5flag = c.sr5flag → ¬ status &&& c.sr4flag = c.sr4flag →
        status &&& c.sr3flag = c.sr3flag → intel_decode c status = IntelStatus.progErr) := by
  intro c status
  constructor
  · unfold intel_decode
    split_ifs <;> simp_all
  · intro h5 h4 h3
    unfold intel_decode
    split_ifs
    simp_all

/-- Witness for C3 at `ctx0`: status word 0x08 (voltage-error bit alone)
decodes to `progErr`, and status word 0x04 (program-suspend alone)
decodes to `voltageErr`. -/
theorem claim_C3_witness :
    intel_decode ctx0 INTEL_VOLTAGE_ERRORS = IntelStatus.progErr ∧
    (intel_decode ctx0 INTEL_PROGRAM_SUSPEND = IntelStatus.voltageErr ↔
      (¬ INTEL_PROGRAM_SUSPEND &&& ctx0.sr5flag = ctx0.sr5flag ∧
       ¬ INTEL_PROGRAM_SUSPEND &&& ctx0.sr4flag = ctx0.sr4flag ∧
       ¬ INTEL_PROGRAM_SUSPEND &&& ctx0.sr3flag = ctx0.sr3flag ∧
       INTEL_PROGRAM_SUSPEND &&& ctx0.sr2flag = ctx0.sr2flag)) :=
  ⟨(claim_C3 ctx0 INTEL_VOLTAGE_ERRORS).2 (by decide) (by decide) (by decide),
   (claim_C3 ctx0 INTEL_PROGRAM_SUSPEND).1⟩

/-! ### Claim C6 -/

/-- C6: block-to-byte-and-back address round-trip.  `b` ranging over the
device geometry means the block's byte address is an actual 32-bit device
address, i.e. `b << addr_shift` does not overflow; under that reading the
round-trip is exact. -/
theorem claim_C6 :
    ∀ (c : DevCtx) (b : Nat),
      c.devinf.addr_shift ≤ 32 →
      b < 2 ^ (32 - c.devinf.addr_shift) →
      ADDR_TO_BLKADDR c (BLKADDR_TO_ADDR c b) = b := by
  intro c b hsh hb
  unfold ADDR_TO_BLKADDR BLKADDR_TO_ADDR
  rw [Nat.shiftLeft_eq, Nat.shiftRight_eq_div_pow]
  have hpos : 0 < 2 ^ c.devinf.addr_shift := Nat.pos_pow_of_pos _ (by norm_num)
  have h2 : 2 ^ (32 - c.devinf.addr_shift) * 2 ^ c.devinf.addr_shift = 2 ^ 32 := by
    rw [← pow_add, Nat.sub_add_cancel hsh]
  have h1 : b * 2 ^ c.devinf.addr_shift < 2 ^ 32 := by
    calc b * 2 ^ c.devinf.addr_shift
        < 2 ^ (32 - c.devinf.addr_shift) * 2 ^ c.devinf.addr_shift :=
          Nat.mul_lt_mul_of_lt_of_le hb (le_refl _) hpos
      _ = 2 ^ 32 := h2
  rw [Nat.mod_eq_of_lt h1, Nat.mul_div_cancel _ hpos]

/-- Witness for C6: block address 2 in the scenario geometry
(`addr_shift = 1`) round-trips through byte address 4. -/
theorem claim_C6_witness :
    ctx0.devinf.addr_shift ≤ 32 ∧ 2 < 2 ^ (32 - ctx0.devinf.addr_shift) ∧
    ADDR_TO_BLKADDR ctx0 (BLKADDR_TO_ADDR ctx0 2) = 2 :=
  ⟨by decide, by decide, claim_C6 ctx0 2 (by decide) (by decide)⟩

/-! ### Claim C8 -/

/-- C8: `intel_lock_block` and `intel_unlock_block` are the same
command/delay/poll/decode/reset sequence, differing only in the confirm
byte: both are exactly the common body instantiated with the set-lock-bit
byte 0x01 resp. the clear-lock-bits byte 0xd0. -/
theorem claim_C8 :
    intel_lock_block = intel_change_lock_common INTEL_SET_LOCK_BIT ∧
    intel_unlock_block = intel_change_lock_common INTEL_CLEAR_LOCK_BITS :=
  ⟨rfl, rfl⟩

/-! ### Claim C7 -/

/-- C7: in the scenario geometry (one region at offset 0, 4 blocks of
0x10000, `addr_step = 2`, `addr_shift = 1`), erasing block address 2
issues the erase command 0x20 then the confirm byte 0xd0 at command
address 2, polls the status word at byte address 4 = 2<<1 until the ready
mask 0x80 is set (here one busy read returning 0, then a ready read), and
ends by resetting block 2 (clear-status, read-array at 2, delay).  The
unlock-before-erase pass (change-lock 0x60, clear-lock-bits 0xd0, its
poll, decode and reset) precedes the erase sequence, as the build enables
it.  The whole transaction trace is computed exactly. -/
theorem claim_C7 :
    intel_blk_erase_dev env7 10 2 s0 =
      some (IntelStatus.ready,
        { ctx := ctx0, reads := 5, trace :=
          [Ev.cmdwrite 2 INTEL_CHANGE_LOCK, Ev.cmdwrite 2 INTEL_CLEAR_LOCK_BITS,
           Ev.delay INTEL_STATUS_DELAY_LOOPS,
           Ev.read 4 0x80,
           Ev.delay INTEL_STATUS_DELAY_LOOPS,
           Ev.cmdwrite 2 INTEL_READ_STATUS, Ev.read 4 0x80,
           Ev.cmdwrite 0 INTEL_CLEAR_STATUS, Ev.cmdwrite 2 INTEL_READ_ARRAY,
           Ev.delay INTEL_STATUS_DELAY_LOOPS,
           Ev.cmdwrite 2 INTEL_BLOCK_ERASE, Ev.cmdwrite 2 INTEL_CONFIRM,
           Ev.delay INTEL_STATUS_DELAY_LOOPS,
           Ev.read 4 0, Ev.read 4 0x80,
           Ev.cmdwrite 2 INTEL_READ_STATUS, Ev.read 4 0x80,
           Ev.cmdwrite 0 INTEL_CLEAR_STATUS, Ev.cmdwrite 2 INTEL_READ_ARRAY,
           Ev.delay INTEL_STATUS_DELAY_LOOPS] }) := by
  decide

/-! ### Claim C2 -/

/-- C2 counterexample: a successful `intel_prog_dev` run (programming one
aligned unit at offset 0 on an always-ready device) returns without any
trailing reset: its trace ends with the read-status command and the
status read, not with the clear-status/read-array reset sequence, so the
claimed unconditional reset-before-return fails on the program engine's
success path. -/
theorem claim_C2_counterexample :
    intel_prog_dev envR mem0 1 1 0 2 0 s0 =
      some (IntelStatus.ready,
        { ctx := ctx0, reads := 2, trace :=
          [Ev.cmdwrite 0 INTEL_CLEAR_STATUS, Ev.cmdwrite 0 INTEL_READ_ARRAY,
           Ev.delay INTEL_STATUS_DELAY_LOOPS,
           Ev.cmdwrite 0 INTEL_PROGRAM_WORD, Ev.write 0 0,
           Ev.delay INTEL_STATUS_DELAY_LOOPS,
           Ev.read 0 0x80,
           Ev.cmdwrite 0 INTEL_READ_STATUS, Ev.read 0 0x80] }) ∧
    ¬ resetSuffix 0
        [Ev.cmdwrite 0 INTEL_CLEAR_STATUS, Ev.cmdwrite 0 INTEL_READ_ARRAY,
         Ev.delay INTEL_STATUS_DELAY_LOOPS,
         Ev.cmdwrite 0 INTEL_PROGRAM_WORD, Ev.write 0 0,
         Ev.delay INTEL_STATUS_DELAY_LOOPS,
         Ev.read 0 0x80,
         Ev.cmdwrite 0 INTEL_READ_STATUS, Ev.read 0 0x80] := by
  constructor
  · decide
  · decide

/-- C2 amended: block erase, lock and unlock do unconditionally reset the
affected block before returning — on success and on every error path
their trace ends with the clear-status and read-array (reset) commands
for that block.  The program engine resets the affected block before
starting and on every failing path (any run returning a non-ready status
ends with the reset sequence of some block), but its success path returns
without a trailing reset. -/
theorem claim_C2 :
    (∀ (env : Nat → Nat) (fuel b : Nat) (s : MachineState)
       (p : IntelStatus × MachineState),
       intel_blk_erase_dev env fuel b s = some p → resetSuffix b p.2.trace) ∧
    (∀ (env : Nat → Nat) (fuel b : Nat) (s : MachineState)
       (p : IntelStatus × MachineState),
       intel_lock_block env fuel b s = some p → resetSuffix b p.2.trace) ∧
    (∀ (env : Nat → Nat) (fuel b : Nat) (s : MachineState)
       (p : IntelStatus × MachineState),
       intel_unlock_block env fuel b s = some p → resetSuffix b p.2.trace) ∧
    (∀ (env mem : Nat → Nat) (pollFuel itFuel offset nbytes srcaddr : Nat)
       (s : MachineState) (p : IntelStatus × MachineState),
       intel_prog_dev env mem pollFuel itFuel offset nbytes srcaddr s = some p →
       p.1 ≠ IntelStatus.ready → ∃ b, resetSuffix b p.2.trace) := by
  refine ⟨?_, ?_, ?_, ?_⟩
  · intro env fuel b s p h
    obtain ⟨s', hs⟩ := shape_intel_blk_erase_dev h
    rw [hs]; exact resetSuffix_rst_blk b s'
  · intro env fuel b s p h
    obtain ⟨s', hs⟩ := shape_intel_lock_block h
    rw [hs]; exact resetSuffix_rst_blk b s'
  · intro env fuel b s p h
    obtain ⟨s', hs⟩ := shape_intel_unlock_block h
    rw [hs]; exact resetSuffix_rst_blk b s'
  · intro env mem pollFuel itFuel offset nbytes srcaddr s p h hne
    simp only [intel_prog_dev] at h
    obtain ⟨b, s', hs⟩ := shape_intel_prog_loop h hne
    exact ⟨b, by rw [hs]; exact resetSuffix_rst_blk b s'⟩

/-- Witness for C2: the concrete scenario erase of block 2 ends with the
reset sequence for block 2. -/
theorem claim_C2_witness :
    resetSuffix 2
      (match intel_blk_erase_dev env7 10 2 s0 with
       | none => []
       | some p => p.2.trace) := by
  rcases hE : intel_blk_erase_dev env7 10 2 s0 with _ | p
  · exact absurd hE (by decide)
  · have h := claim_C2.1 env7 10 2 s0 p hE
    simpa [hE] using h

/-! ### Claim C4 -/

lemma eraseBlockList_append (env : Nat → Nat) (fuel : Nat) :
    ∀ (l₁ l₂ : List Nat) (s : MachineState),
      eraseBlockList env fuel (l₁ ++ l₂) s =
        match eraseBlockList env fuel l₁ s with
        | none => none
        | some p =>
          if p.1 = IntelStatus.ready then eraseBlockList env fuel l₂ p.2 else some p := by
  intro l₁
  induction l₁ with
  | nil => intro l₂ s; simp [eraseBlockList]
  | cons b l₁ ih =>
    intro l₂ s
    simp only [List.cons_append, eraseBlockList]
    cases hb : intel_blk_erase_dev env fuel b s with
    | none => rfl
    | some p =>
      by_cases hp : p.1 = IntelStatus.ready
      · simp [hp, ih]
      · simp [hp]

lemma intel_erase_dev_blks_eq (env : Nat → Nat) (fuel : Nat) (bof : Nat → Nat)
    (blksiz : Nat) :
    ∀ (j offset : Nat) (s : MachineState),
      intel_erase_dev_blks env fuel bof blksiz j offset s =
        eraseBlockList env fuel
          (regionBlockAddrs bof s.ctx.devinf.part_mode blksiz j offset) s := by
  intro j
  induction j with
  | zero => intro offset s; rfl
  | succ n ih =>
    intro offset s
    simp only [intel_erase_dev_blks, regionBlockAddrs, eraseBlockList]
    cases hb : intel_blk_erase_dev env fuel (offset >>> bof s.ctx.devinf.part_mode) s with
    | none => rfl
    | some p =>
      by_cases hp : p.1 = IntelStatus.ready
      · have hc : p.2.ctx = s.ctx := ctx_intel_blk_erase_dev hb
        simp [hp, ih, hc]
      · simp [hp]

lemma intel_erase_dev_regions_eq (env : Nat → Nat) (fuel : Nat) (bof : Nat → Nat) :
    ∀ (rs : List Region) (s : MachineState),
      intel_erase_dev_regions env fuel bof rs s =
        eraseBlockList env fuel
          ((rs.map (fun r =>
            regionBlockAddrs bof s.ctx.devinf.part_mode r.blksiz r.nblks r.offset)).flatten)
          s := by
  intro rs
  induction rs with
  | nil => intro s; rfl
  | cons r rs ih =>
    intro s
    simp only [intel_erase_dev_regions, List.map_cons, List.flatten_cons,
      eraseBlockList_append, intel_erase_dev_blks_eq]
    cases hb : eraseBlockList env fuel
        (regionBlockAddrs bof s.ctx.devinf.part_mode r.blksiz r.nblks r.offset) s with
    | none => rfl
    | some p =>
      by_cases hp : p.1 = IntelStatus.ready
      · have hc : p.2.ctx = s.ctx := by
          rw [← intel_erase_dev_blks_eq] at hb
          exact ctx_intel_erase_dev_blks hb
        simp [hp, ih, hc]
      · simp [hp]

/-- C4: `intel_erase_dev` is exactly the short-circuiting left-to-right
run of `intel_blk_erase_dev` over the block addresses produced by the
Block Iterator, for every geometry, device behaviour and fuel: it stops
at the first non-ready result and returns ready only when every block
erase returned ready (`eraseBlockList` returns ready only by consuming
the whole list). -/
theorem claim_C4 :
    ∀ (env : Nat → Nat) (fuel : Nat) (bof : Nat → Nat) (s : MachineState),
      intel_erase_dev env fuel bof s =
        eraseBlockList env fuel (blockIter bof s.ctx.devinf) s := by
  intro env fuel bof s
  unfold intel_erase_dev blockIter
  exact intel_erase_dev_regions_eq env fuel bof s.ctx.devinf.regions s

/-! ### Claim C5 -/

lemma progWords_append (t u : List Ev) :
    progWords (t ++ u) = progWords t + progWords u :=
  List.countP_append _ _ _

lemma progWords_pollReady {env : Nat → Nat} {a m : Nat} :
    ∀ {fuel : Nat} {s : MachineState} {p : Nat × MachineState},
      pollReady env a m fuel s = some p → progWords p.2.trace = progWords s.trace := by
  intro fuel
  induction fuel with
  | zero => intro s p h; simp [pollReady] at h
  | succ n ih =>
    intro s p h
    simp only [pollReady] at h
    split at h
    · cases h
      simp [fl_read, progWords_append, progWords, isProgWord]
    · have := ih h
      simpa [fl_read, progWords_append, progWords, isProgWord] using this

lemma progWords_intel_status_check (env : Nat → Nat) (b : Nat) (s : MachineState) :
    progWords (intel_status_check env b s).2.trace = progWords s.trace := by
  simp [intel_status_check, intel_read_status, fl_read, fl_cmdwrite,
    progWords_append, progWords, isProgWord, INTEL_READ_STATUS, INTEL_PROGRAM_WORD]

lemma progWords_intel_rst_blk (b : Nat) (s : MachineState) :
    progWords (intel_rst_blk b s).trace = progWords s.trace := by
  simp [trace_intel_rst_blk, progWords_append, progWords, isProgWord,
    INTEL_CLEAR_STATUS, INTEL_READ_ARRAY, INTEL_PROGRAM_WORD]

lemma sub_step_mod_two_pow {step nbytes : Nat} (h1 : step ≤ nbytes)
    (h2 : nbytes < 2 ^ 32) :
    (nbytes + (2 ^ 32 - step)) % 2 ^ 32 = nbytes - step := by
  have hs : step ≤ 2 ^ 32 := le_trans h1 (le_of_lt h2)
  have he : nbytes + (2 ^ 32 - step) = 2 ^ 32 + (nbytes - step) := by omega
  rw [he, Nat.add_mod_left, Nat.mod_eq_of_lt (by omega)]

lemma div_sub_step {step n : Nat} (h0 : 0 < step) (hd : step ∣ n) (h1 : step ≤ n) :
    (n - step) / step + 1 = n / step := by
  obtain ⟨k, rfl⟩ := hd
  have hk : 1 ≤ k := by
    by_contra hc
    push_neg at hc
    interval_cases k
    omega
  obtain ⟨k', rfl⟩ : ∃ k', k = k' + 1 := ⟨k - 1, by omega⟩
  have he : step * (k' + 1) - step = step * k' := by
    rw [Nat.mul_succ]
    exact Nat.add_sub_cancel _ _
  rw [he, Nat.mul_div_cancel_left _ h0, Nat.mul_div_cancel_left _ h0]

lemma progWords_intel_prog_loop {env mem : Nat → Nat} {pollFuel : Nat} :
    ∀ {itFuel nbytes offset srcaddr : Nat} {s : MachineState}
      {p : IntelStatus × MachineState},
      0 < s.ctx.addr_step →
      s.ctx.addr_step ∣ nbytes →
      nbytes < 2 ^ 32 →
      intel_prog_loop env mem pollFuel itFuel nbytes offset srcaddr s = some p →
      p.1 = IntelStatus.ready →
      progWords p.2.trace = progWords s.trace + nbytes / s.ctx.addr_step := by
  intro itFuel
  induction itFuel with
  | zero =>
    intro nbytes offset srcaddr s p hstep hdvd hlt h hr
    simp only [intel_prog_loop] at h
    split at h
    · cases h
      rename_i hz
      simp [hz]
    · exact absurd h (by simp)
  | succ n ih =>
    intro nbytes offset srcaddr s p hstep hdvd hlt h hr
    simp only [intel_prog_loop] at h
    split at h
    · cases h
      rename_i hz
      simp [hz]
    · rename_i hnz
      split at h
      · exact absurd h (by simp)
      · rename_i q hq
        split at h
        · -- ready decode: this iteration issues one program-word command,
          -- then the loop continues on nbytes - addr_step
          have hple : s.ctx.addr_step ≤ nbytes :=
            Nat.le_of_dvd (Nat.pos_of_ne_zero hnz) hdvd
          rw [sub_step_mod_two_pow hple hlt] at h
          have hq2 : q.2.ctx = s.ctx := by simpa using ctx_pollReady hq
          have hctx5 :
              (intel_status_check env (ADDR_TO_BLKADDR q.2.ctx offset) q.2).2.ctx =
                s.ctx := by
            rw [ctx_intel_status_check]; exact hq2
          have hih := ih (by rw [hctx5]; exact hstep)
            (by rw [hctx5]; exact Nat.dvd_sub' hdvd dvd_rfl)
            (by omega) h hr
          rw [hctx5] at hih
          have htr :
              progWords (intel_status_check env (ADDR_TO_BLKADDR q.2.ctx offset) q.2).2.trace =
                progWords s.trace + 1 := by
            rw [progWords_intel_status_check, progWords_pollReady hq]
            simp [intel_status_delay, fl_write, fl_cmdwrite, mem_read,
              progWords_append, progWords, isProgWord, INTEL_PROGRAM_WORD]
          rw [htr] at hih
          rw [hih, Nat.add_assoc]
          congr 1
          rw [Nat.add_comm 1 _]
          exact div_sub_step hstep hdvd hple
        · cases h
          rename_i hqr
          exact absurd hr hqr

lemma intel_align_of_mod_ne {step n : Nat} (h0 : 0 < step) (hm : n % step ≠ 0)
    (hw : n + (step - n % step) < 2 ^ 32) :
    intel_align step n = step * (n / step + 1) := by
  unfold intel_align
  rw [if_pos hm, Nat.mod_eq_of_lt hw, Nat.mul_succ]
  have hqm := Nat.div_add_mod n step
  have hlt : n % step < step := Nat.mod_lt n h0
  generalize hq : step * (n / step) = q at hqm ⊢
  omega

/-- C5 as amended: when rounding up cannot overflow the 32-bit byte
counter (`n + (addr_step - n % addr_step) < 2^32`), a byte count `n` that
is not a multiple of `addr_step` is aligned to exactly
`addr_step * (n / addr_step + 1)` bytes — the next multiple — and a
successful program run issues exactly `n / addr_step + 1 = ⌈n/addr_step⌉`
program-word commands.  (Without the overflow hypothesis the claim fails,
see the counterexample.) -/
theorem claim_C5 :
    ∀ (env mem : Nat → Nat) (pollFuel itFuel offset n srcaddr : Nat)
      (s : MachineState) (p : IntelStatus × MachineState),
      0 < s.ctx.addr_step →
      n % s.ctx.addr_step ≠ 0 →
      n + (s.ctx.addr_step - n % s.ctx.addr_step) < 2 ^ 32 →
      intel_prog_dev env mem pollFuel itFuel offset n srcaddr s = some p →
      p.1 = IntelStatus.ready →
      intel_align s.ctx.addr_step n = s.ctx.addr_step * (n / s.ctx.addr_step + 1) ∧
      progWords p.2.trace = progWords s.trace + (n / s.ctx.addr_step + 1) := by
  intro env mem pollFuel itFuel offset n srcaddr s p hstep hmod hw h hr
  have halign := intel_align_of_mod_ne hstep hmod hw
  refine ⟨halign, ?_⟩
  simp only [intel_prog_dev] at h
  have hctx0 : (intel_rst_blk (ADDR_TO_BLKADDR s.ctx offset) s).ctx = s.ctx :=
    ctx_intel_rst_blk _ _
  rw [hctx0] at h
  have hdvd : s.ctx.addr_step ∣ intel_align s.ctx.addr_step n :=
    ⟨n / s.ctx.addr_step + 1, halign⟩
  have hlt : intel_align s.ctx.addr_step n < 2 ^ 32 := by
    unfold intel_align
    rw [if_pos hmod]
    exact Nat.mod_lt _ (by norm_num)
  have hcount := progWords_intel_prog_loop
    (by rw [hctx0]; exact hstep) (by rw [hctx0]; exact hdvd) hlt h hr
  rw [hctx0] at hcount
  rw [hcount, progWords_intel_rst_blk]
  have hq : intel_align s.ctx.addr_step n / s.ctx.addr_step =
      n / s.ctx.addr_step + 1 := by
    rw [halign, Nat.mul_div_cancel_left _ hstep]
  rw [hq]

/-- C5 counterexample: programming `n = 2^32 - 1` bytes with
`addr_step = 2` wraps the 32-bit round-up to 0: the run succeeds having
issued zero program-word commands, although `⌈n/2⌉ = 2^31 ≠ 0` — the byte
count is not rounded up to the nearest multiple of `addr_step`. -/
theorem claim_C5_counterexample :
    intel_align 2 (2 ^ 32 - 1) = 0 ∧
    intel_prog_dev envR mem0 1 1 0 (2 ^ 32 - 1) 0 s0 =
      some (IntelStatus.ready,
        { ctx := ctx0, reads := 0, trace :=
          [Ev.cmdwrite 0 INTEL_CLEAR_STATUS, Ev.cmdwrite 0 INTEL_READ_ARRAY,
           Ev.delay INTEL_STATUS_DELAY_LOOPS] }) ∧
    progWords
      [Ev.cmdwrite 0 INTEL_CLEAR_STATUS, Ev.cmdwrite 0 INTEL_READ_ARRAY,
       Ev.delay INTEL_STATUS_DELAY_LOOPS] = 0 ∧
    (2 ^ 32 - 1) / 2 + 1 ≠ 0 := by
  refine ⟨by decide, by decide, by decide, by decide⟩

/-- Final machine state of programming 5 bytes at offset 4 with
`addr_step = 2` on an always-ready device: three programming units are
issued (at offsets 4, 6 and 8). -/
def progDemoState : MachineState :=
  { ctx := ctx0, reads := 6, trace :=
    [Ev.cmdwrite 0 INTEL_CLEAR_STATUS, Ev.cmdwrite 2 INTEL_READ_ARRAY,
     Ev.delay INTEL_STATUS_DELAY_LOOPS,
     Ev.cmdwrite 2 INTEL_PROGRAM_WORD, Ev.write 4 0,
     Ev.delay INTEL_STATUS_DELAY_LOOPS,
     Ev.read 4 0x80, Ev.cmdwrite 2 INTEL_READ_STATUS, Ev.read 4 0x80,
     Ev.cmdwrite 3 INTEL_PROGRAM_WORD, Ev.write 6 0,
     Ev.delay INTEL_STATUS_DELAY_LOOPS,
     Ev.read 6 0x80, Ev.cmdwrite 3 INTEL_READ_STATUS, Ev.read 6 0x80,
     Ev.cmdwrite 4 INTEL_PROGRAM_WORD, Ev.write 8 0,
     Ev.delay INTEL_STATUS_DELAY_LOOPS,
     Ev.read 8 0x80, Ev.cmdwrite 4 INTEL_READ_STATUS, Ev.read 8 0x80] }

/-- Witness for C5: programming 5 bytes with `addr_step = 2` aligns the
count to 6 bytes and issues exactly 3 programming units. -/
theorem claim_C5_witness :
    0 < s0.ctx.addr_step ∧ 5 % s0.ctx.addr_step ≠ 0 ∧
    5 + (s0.ctx.addr_step - 5 % s0.ctx.addr_step) < 2 ^ 32 ∧
    intel_align s0.ctx.addr_step 5 = 6 ∧
    5 / s0.ctx.addr_step + 1 = 3 ∧
    progWords progDemoState.trace = progWords s0.trace + (5 / s0.ctx.addr_step + 1) := by
  refine ⟨by decide, by decide, by decide, by decide, by decide, ?_⟩
  exact (claim_C5 envR mem0 1 3 4 5 100 s0 (IntelStatus.ready, progDemoState)
    (by decide) (by decide) (by decide) (by decide) (by decide)).2

/-! ### Claim C10 -/

lemma ceil_div_of_mod_ne {step n : Nat} (h0 : 0 < step) (hm : n % step ≠ 0) :
    (n + step - 1) / step = n / step + 1 := by
  have hqm := Nat.div_add_mod n step
  have hlt : n % step < step := Nat.mod_lt n h0
  have key : n + step - 1 = step * (n / step + 1) + (n % step - 1) := by
    rw [Nat.mul_succ]
    generalize hq : step * (n / step) = q at hqm ⊢
    omega
  have hsmall : (n % step - 1) / step = 0 := Nat.div_eq_of_lt (by omega)
  rw [key, Nat.mul_add_div h0, hsmall, Nat.add_zero]

lemma ceil_div_of_mod_eq {step n : Nat} (h0 : 0 < step) (hm : n % step = 0) :
    (n + step - 1) / step = n / step := by
  obtain ⟨k, rfl⟩ := Nat.dvd_of_mod_eq_zero hm
  have key : step * k + step - 1 = step * k + (step - 1) := by omega
  have hsmall : (step - 1) / step = 0 := Nat.div_eq_of_lt (by omega)
  rw [key, Nat.mul_add_div h0, hsmall, Nat.add_zero,
    Nat.mul_div_cancel_left _ h0]

lemma pollReady_one {env : Nat → Nat} {a m : Nat} {s : MachineState}
    (h : env s.reads &&& m = m) :
    pollReady env a m 1 s = some (fl_read env a s) := by
  simp [pollReady, fl_read, h]

lemma intel_status_check_ready {env : Nat → Nat} {c : DevCtx}
    (hdec : ∀ k, intel_decode c (env k) = IntelStatus.ready)
    (b : Nat) (t : MachineState) (ht : t.ctx = c) :
    (intel_status_check env b t).1 = IntelStatus.ready := by
  simp [intel_status_check, intel_read_status, fl_read, fl_cmdwrite, ht, hdec]

/-- One successful iteration of the program loop on an always-ready
device: it reduces to the loop on `nbytes - addr_step` more bytes (in
32-bit form) from a state with the same context. -/
lemma intel_prog_loop_succ_ready {env mem : Nat → Nat} {c : DevCtx}
    (henv : ∀ k, env k &&& c.sr7flag = c.sr7flag)
    (hdec : ∀ k, intel_decode c (env k) = IntelStatus.ready)
    (m itFuel offset srcaddr : Nat) (s : MachineState) (hsc : s.ctx = c)
    (hm : m ≠ 0) :
    ∃ t : MachineState, t.ctx = c ∧
      intel_prog_loop env mem 1 (itFuel + 1) m offset srcaddr s =
        intel_prog_loop env mem 1 itFuel ((m + (2 ^ 32 - c.addr_step)) % 2 ^ 32)
          ((offset + c.addr_step) % 2 ^ 32) ((srcaddr + c.addr_step) % 2 ^ 32) t := by
  simp only [intel_prog_loop]
  rw [if_neg hm]
  set s₃ := intel_status_delay (fl_write offset (mem_read mem srcaddr)
    (fl_cmdwrite (offset >>> s.ctx.addr_shift) INTEL_PROGRAM_WORD s)) with hs3def
  have hs3reads : s₃.reads = s.reads := by
    rw [hs3def]
    simp [intel_status_delay, fl_write, fl_cmdwrite]
  have hpoll : pollReady env offset s.ctx.sr7flag 1 s₃ =
      some (fl_read env offset s₃) := by
    apply pollReady_one
    rw [hs3reads, hsc]
    exact henv s.reads
  rw [hpoll]
  dsimp only
  set q := fl_read env offset s₃ with hqdef
  have hq2 : q.2.ctx = c := by simp [hqdef, hs3def, hsc]
  set r := intel_status_check env (ADDR_TO_BLKADDR q.2.ctx offset) q.2 with hrdef
  have hr1 : r.1 = IntelStatus.ready := by
    rw [hrdef]
    exact intel_status_check_ready hdec _ _ hq2
  rw [if_pos hr1]
  refine ⟨r.2, ?_, ?_⟩
  · rw [hrdef, ctx_intel_status_check]
    exact hq2
  · rw [hsc]

/-- On an always-ready device the program loop started on `addr_step * k`
bytes succeeds with iteration fuel exactly `k` and fails (runs out of
fuel) with any smaller fuel: it performs exactly `k` iterations. -/
lemma intel_prog_loop_fuel {env mem : Nat → Nat} {c : DevCtx}
    (hstep : 0 < c.addr_step)
    (henv : ∀ k, env k &&& c.sr7flag = c.sr7flag)
    (hdec : ∀ k, intel_decode c (env k) = IntelStatus.ready) :
    ∀ (k : Nat), c.addr_step * k < 2 ^ 32 →
      ∀ (offset srcaddr : Nat) (s : MachineState), s.ctx = c →
      (∃ s', intel_prog_loop env mem 1 k (c.addr_step * k) offset srcaddr s =
          some (IntelStatus.ready, s')) ∧
      (∀ j, j < k →
        intel_prog_loop env mem 1 j (c.addr_step * k) offset srcaddr s = none) := by
  intro k
  induction k with
  | zero =>
    intro hlt offset srcaddr s hsc
    constructor
    · exact ⟨s, by simp [intel_prog_loop]⟩
    · intro j hj; omega
  | succ k ih =>
    intro hlt offset srcaddr s hsc
    have hpos : 0 < c.addr_step * (k + 1) := Nat.mul_pos hstep (Nat.succ_pos k)
    have hnz : c.addr_step * (k + 1) ≠ 0 := Nat.pos_iff_ne_zero.mp hpos
    have hle : c.addr_step * k ≤ c.addr_step * (k + 1) :=
      Nat.mul_le_mul_left _ (by omega)
    have hlt' : c.addr_step * k < 2 ^ 32 := lt_of_le_of_lt hle hlt
    have h1 : c.addr_step ≤ c.addr_step * (k + 1) := by
      calc c.addr_step = c.addr_step * 1 := (Nat.mul_one _).symm
        _ ≤ c.addr_step * (k + 1) := Nat.mul_le_mul_left _ (by omega)
    have hsle : c.addr_step ≤ 2 ^ 32 := le_of_lt (lt_of_le_of_lt h1 hlt)
    have hnb : (c.addr_step * (k + 1) + (2 ^ 32 - c.addr_step)) % 2 ^ 32 =
        c.addr_step * k := by
      have he : c.addr_step * (k + 1) + (2 ^ 32 - c.addr_step) =
          2 ^ 32 + c.addr_step * k := by
        rw [Nat.mul_succ]
        generalize c.addr_step * k = q
        omega
      rw [he, Nat.add_mod_left, Nat.mod_eq_of_lt hlt']
    constructor
    · obtain ⟨t, htc, hstep_eq⟩ := intel_prog_loop_succ_ready henv hdec
        (c.addr_step * (k + 1)) k offset srcaddr s hsc hnz
      rw [hstep_eq, hnb]
      exact (ih hlt' _ _ t htc).1
    · intro j hj
      cases j with
      | zero =>
        simp only [intel_prog_loop]
        rw [if_neg hnz]
      | succ j' =>
        obtain ⟨t, htc, hstep_eq⟩ := intel_prog_loop_succ_ready henv hdec
          (c.addr_step * (k + 1)) j' offset srcaddr s hsc hnz
        rw [hstep_eq, hnb]
        exact (ih hlt' _ _ t htc).2 j' (by omega)

/-- C10 as amended: for positive `addr_step`, a byte count `n < 2^32`
whose round-up does not overflow (either `n` is already a multiple of
`addr_step`, or `n + (addr_step - n % addr_step) < 2^32`) is aligned to
an exact multiple of `addr_step`, namely `addr_step * ⌈n/addr_step⌉`, and
on an always-ready device the programming loop performs exactly
`⌈n/addr_step⌉ = (n + addr_step - 1) / addr_step` iterations: it succeeds
with iteration fuel `⌈n/addr_step⌉` and runs out with any smaller fuel,
each iteration decreasing the counter by exactly `addr_step` down to 0
with no wrap-around.  (Without the no-overflow hypothesis the iteration
count is wrong, see the counterexample; for `addr_step = 0` the C
alignment takes `nbytes % 0`, which is undefined.) -/
theorem claim_C10 :
    ∀ (env mem : Nat → Nat) (offset n srcaddr : Nat) (s : MachineState),
      0 < s.ctx.addr_step →
      (∀ k, env k &&& s.ctx.sr7flag = s.ctx.sr7flag) →
      (∀ k, intel_decode s.ctx (env k) = IntelStatus.ready) →
      n < 2 ^ 32 →
      (n % s.ctx.addr_step = 0 ∨
        n + (s.ctx.addr_step - n % s.ctx.addr_step) < 2 ^ 32) →
      s.ctx.addr_step ∣ intel_align s.ctx.addr_step n ∧
      intel_align s.ctx.addr_step n =
        s.ctx.addr_step * ((n + s.ctx.addr_step - 1) / s.ctx.addr_step) ∧
      (∃ s', intel_prog_dev env mem 1 ((n + s.ctx.addr_step - 1) / s.ctx.addr_step)
          offset n srcaddr s = some (IntelStatus.ready, s')) ∧
      (∀ j, j < (n + s.ctx.addr_step - 1) / s.ctx.addr_step →
        intel_prog_dev env mem 1 j offset n srcaddr s = none) := by
  intro env mem offset n srcaddr s hstep henv hdec hn hw
  have hq : intel_align s.ctx.addr_step n =
      s.ctx.addr_step * ((n + s.ctx.addr_step - 1) / s.ctx.addr_step) := by
    by_cases hm : n % s.ctx.addr_step = 0
    · rw [ceil_div_of_mod_eq hstep hm]
      unfold intel_align
      rw [if_neg (by simpa using hm)]
      exact (Nat.mul_div_cancel' (Nat.dvd_of_mod_eq_zero hm)).symm
    · rcases hw with hm0 | hwlt
      · exact absurd hm0 hm
      · rw [ceil_div_of_mod_ne hstep hm, intel_align_of_mod_ne hstep hm hwlt]
  have halt : intel_align s.ctx.addr_step n < 2 ^ 32 := by
    by_cases hm : n % s.ctx.addr_step = 0
    · unfold intel_align
      rw [if_neg (by simpa using hm)]
      exact hn
    · rcases hw with hm0 | hwlt
      · exact absurd hm0 hm
      · unfold intel_align
        rw [if_pos hm]
        exact Nat.mod_lt _ (by norm_num)
  have hqlt : s.ctx.addr_step * ((n + s.ctx.addr_step - 1) / s.ctx.addr_step) <
      2 ^ 32 := hq ▸ halt
  have hfuel := @intel_prog_loop_fuel env mem s.ctx hstep henv hdec
    ((n + s.ctx.addr_step - 1) / s.ctx.addr_step) hqlt offset srcaddr
    (intel_rst_blk (ADDR_TO_BLKADDR s.ctx offset) s) (ctx_intel_rst_blk _ _)
  refine ⟨⟨_, hq⟩, hq, ?_, ?_⟩
  · obtain ⟨s', hs'⟩ := hfuel.1
    refine ⟨s', ?_⟩
    simp only [intel_prog_dev, ctx_intel_rst_blk]
    rw [hq]
    exact hs'
  · intro j hj
    simp only [intel_prog_dev, ctx_intel_rst_blk]
    rw [hq]
    exact hfuel.2 j hj

/-- C10 counterexample: with `addr_step = 4` and `n = 2^32 - 2`
(`n % 4 = 2`), the 32-bit round-up wraps to 0, so the programming loop on
an always-ready device performs zero iterations (it already succeeds with
iteration fuel 0) although `⌈n/4⌉ = 2^30 ≠ 0` — the loop does not execute
`⌈n/addr_step⌉` iterations and the counter never decreased to zero
through `addr_step`-sized steps. -/
theorem claim_C10_counterexample :
    0 < ctx4.addr_step ∧
    (2 ^ 32 - 2) % ctx4.addr_step ≠ 0 ∧
    intel_align ctx4.addr_step (2 ^ 32 - 2) = 0 ∧
    intel_prog_dev envR mem0 1 0 0 (2 ^ 32 - 2) 0 s4 =
      some (IntelStatus.ready,
        { ctx := ctx4, reads := 0, trace :=
          [Ev.cmdwrite 0 INTEL_CLEAR_STATUS, Ev.cmdwrite 0 INTEL_READ_ARRAY,
           Ev.delay INTEL_STATUS_DELAY_LOOPS] }) ∧
    ((2 ^ 32 - 2) + ctx4.addr_step - 1) / ctx4.addr_step = 2 ^ 30 ∧
    (0 : Nat) ≠ 2 ^ 30 := by
  refine ⟨by decide, by decide, by decide, by decide, by decide, by decide⟩

/-- Witness for C10: programming 7 bytes with `addr_step = 2` on an
always-ready device takes exactly `⌈7/2⌉ = 4` loop iterations: fuel 4
succeeds, fuel 3 does not. -/
theorem claim_C10_witness :
    (0 < s0.ctx.addr_step ∧ 7 < 2 ^ 32 ∧
      (7 + s0.ctx.addr_step - 1) / s0.ctx.addr_step = 4) ∧
    s0.ctx.addr_step ∣ intel_align s0.ctx.addr_step 7 ∧
    (∃ s', intel_prog_dev envR mem0 1 ((7 + s0.ctx.addr_step - 1) / s0.ctx.addr_step)
        0 7 0 s0 = some (IntelStatus.ready, s')) ∧
    intel_prog_dev envR mem0 1 3 0 7 0 s0 = none := by
  have he : ∀ k, envR k &&& s0.ctx.sr7flag = s0.ctx.sr7flag := by
    intro k
    show (0x80 : Nat) &&& s0.ctx.sr7flag = s0.ctx.sr7flag
    decide
  have hd : ∀ k, intel_decode s0.ctx (envR k) = IntelStatus.ready := by
    intro k
    show intel_decode s0.ctx 0x80 = IntelStatus.ready
    decide
  have h := claim_C10 envR mem0 0 7 0 s0 (by decide) he hd (by decide) (by decide)
  refine ⟨⟨by decide, by decide, by decide⟩, h.1, h.2.2.1, ?_⟩
  exact h.2.2.2 3 (by decide)

/-! ### Claim C9 -/

/-- Context after an optional operation result (the context argument is
returned unchanged when the operation ran out of poll fuel). -/
def ctxAfter (r : Option (IntelStatus × MachineState)) (d : DevCtx) : DevCtx :=
  match r with
  | none => d
  | some p => p.2.ctx

/-- C9: only `intel_init_dev_params` computes the device parameter
context (`devinf`, `addr_step`, `addr_shift` and the seven mask flags);
every other operation — block reset, clear status, delay, status
read/check, device reset, lock, unlock, block erase, device erase,
program — returns a machine state with the context unchanged. -/
theorem claim_C9 :
    (∀ (b : Nat) (s : MachineState), (intel_rst_blk b s).ctx = s.ctx) ∧
    (∀ (s : MachineState), (intel_clear_status s).ctx = s.ctx) ∧
    (∀ (s : MachineState), (intel_status_delay s).ctx = s.ctx) ∧
    (∀ (env : Nat → Nat) (b : Nat) (s : MachineState),
      (intel_read_status env b s).2.ctx = s.ctx) ∧
    (∀ (env : Nat → Nat) (b : Nat) (s : MachineState),
      (intel_status_check env b s).2.ctx = s.ctx) ∧
    (∀ (bof : Nat → Nat) (s : MachineState), (intel_rst_dev bof s).ctx = s.ctx) ∧
    (∀ (env : Nat → Nat) (fuel b : Nat) (s : MachineState)
      (p : IntelStatus × MachineState),
      intel_lock_block env fuel b s = some p → p.2.ctx = s.ctx) ∧
    (∀ (env : Nat → Nat) (fuel b : Nat) (s : MachineState)
      (p : IntelStatus × MachineState),
      intel_unlock_block env fuel b s = some p → p.2.ctx = s.ctx) ∧
    (∀ (env : Nat → Nat) (fuel b : Nat) (s : MachineState)
      (p : IntelStatus × MachineState),
      intel_blk_erase_dev env fuel b s = some p → p.2.ctx = s.ctx) ∧
    (∀ (env : Nat → Nat) (fuel : Nat) (bof : Nat → Nat) (s : MachineState)
      (p : IntelStatus × MachineState),
      intel_erase_dev env fuel bof s = some p → p.2.ctx = s.ctx) ∧
    (∀ (env mem : Nat → Nat) (pollFuel itFuel offset nbytes srcaddr : Nat)
      (s : MachineState) (p : IntelStatus × MachineState),
      intel_prog_dev env mem pollFuel itFuel offset nbytes srcaddr s = some p →
      p.2.ctx = s.ctx) := by
  refine ⟨fun b s => ctx_intel_rst_blk b s,
    fun s => ctx_intel_clear_status s,
    fun s => ctx_intel_status_delay s,
    fun env b s => ctx_intel_read_status env b s,
    fun env b s => ctx_intel_status_check env b s,
    fun bof s => ctx_intel_rst_dev,
    fun env fuel b s p h => ctx_intel_lock_block h,
    fun env fuel b s p h => ctx_intel_unlock_block h,
    fun env fuel b s p h => ctx_intel_blk_erase_dev h,
    fun env fuel bof s p h => ctx_intel_erase_dev h,
    fun env mem pollFuel itFuel offset nbytes srcaddr s p h => ctx_intel_prog_dev h⟩

/-- Witness for C9: every operation run concretely from `s0` leaves the
initializer-computed context `ctx0` in place. -/
theorem claim_C9_witness :
    (intel_rst_blk 2 s0).ctx = s0.ctx ∧
    (intel_clear_status s0).ctx = s0.ctx ∧
    (intel_status_delay s0).ctx = s0.ctx ∧
    (intel_read_status envR 2 s0).2.ctx = s0.ctx ∧
    (intel_status_check envR 2 s0).2.ctx = s0.ctx ∧
    (intel_rst_dev id s0).ctx = s0.ctx ∧
    ctxAfter (intel_lock_block envR 5 2 s0) ctx0 = s0.ctx ∧
    ctxAfter (intel_unlock_block envR 5 2 s0) ctx0 = s0.ctx ∧
    ctxAfter (intel_blk_erase_dev env7 10 2 s0) ctx0 = s0.ctx ∧
    ctxAfter (intel_erase_dev envR 10 id s0) ctx0 = s0.ctx ∧
    ctxAfter (intel_prog_dev envR mem0 1 3 4 5 100 s0) ctx0 = s0.ctx := by
  refine ⟨claim_C9.1 2 s0, claim_C9.2.1 s0, claim_C9.2.2.1 s0,
    claim_C9.2.2.2.1 envR 2 s0, claim_C9.2.2.2.2.1 envR 2 s0,
    claim_C9.2.2.2.2.2.1 id s0, ?_, ?_, ?_, ?_, ?_⟩
  · rcases hE : intel_lock_block envR 5 2 s0 with _ | p
    · exact absurd hE (by decide)
    · have hc := claim_C9.2.2.2.2.2.2.1 envR 5 2 s0 p hE
      simp [ctxAfter, hE, hc]
  · rcases hE : intel_unlock_block envR 5 2 s0 with _ | p
    · exact absurd hE (by decide)
    · have hc := claim_C9.2.2.2.2.2.2.2.1 envR 5 2 s0 p hE
      simp [ctxAfter, hE, hc]
  · rcases hE : intel_blk_erase_dev env7 10 2 s0 with _ | p
    · exact absurd hE (by decide)
    · have hc := claim_C9.2.2.2.2.2.2.2.2.1 env7 10 2 s0 p hE
      simp [ctxAfter, hE, hc]
  · rcases hE : intel_erase_dev envR 10 id s0 with _ | p
    · exact absurd hE (by decide)
    · have hc := claim_C9.2.2.2.2.2.2.2.2.2.1 envR 10 id s0 p hE
      simp [ctxAfter, hE, hc]
  · rcases hE : intel_prog_dev envR mem0 1 3 4 5 100 s0 with _ | p
    · exact absurd hE (by decide)
    · have hc := claim_C9.2.2.2.2.2.2.2.2.2.2 envR mem0 1 3 4 5 100 s0 p hE
      simp [ctxAfter, hE, hc]
